import Mathlib

/-!
Verification development for a contact-book command-line program
(`task.py`): field validation (`Phone`, `Birthday`), `Record` phone CRUD,
the upcoming-birthday computation, the `AddressBook` mapping, and the
command handlers.  Python dates are modelled by a proleptic Gregorian
calendar (`PyDate`), matching `datetime.date`; fallible Python code
(raising `ValueError`) is modelled with `Except String` / `Option`.
-/

set_option autoImplicit false

/-! ## Calendar model (mirrors Python `datetime.date`)

Python's `date` stores a (year, month, day) triple, validated at
construction.  `date.toordinal` counts days from 0001-01-01 (= ordinal 1);
`date.weekday` is Monday = 0 … Sunday = 6; adding `timedelta(days=1)`
advances the triple by one calendar day.  Python caps years at 9999; all
dates in this development stay far below the cap, so the model leaves
years unbounded above. -/

def isLeap (y : Nat) : Bool :=
  (y % 4 == 0 && y % 100 != 0) || y % 400 == 0

def daysInMonth (y m : Nat) : Nat :=
  if m = 2 then (if isLeap y then 29 else 28)
  else if m = 4 ∨ m = 6 ∨ m = 9 ∨ m = 11 then 30
  else 31

/-- Days in the years 1 .. y-1, i.e. `_days_before_year` of CPython. -/
def daysBeforeYear (y : Nat) : Nat :=
  365 * (y - 1) + (y - 1) / 4 + (y - 1) / 400 - (y - 1) / 100

/-- Days of year `y` strictly before month `m` (`_days_before_month`). -/
def daysBeforeMonth (y : Nat) : Nat → Nat
  | 0 => 0
  | 1 => 0
  | m + 2 => daysBeforeMonth y (m + 1) + daysInMonth y (m + 1)

structure PyDate where
  year : Nat
  month : Nat
  day : Nat
deriving DecidableEq

/-- Validity check performed by the `datetime.date` constructor
(year 0 is rejected; the 9999 upper cap is irrelevant here, see above). -/
def isValidDate (d : PyDate) : Bool :=
  1 ≤ d.year && 1 ≤ d.month && d.month ≤ 12 && 1 ≤ d.day &&
    d.day ≤ daysInMonth d.year d.month

/-- `date.toordinal`: 0001-01-01 has ordinal 1. -/
def toOrdinal (d : PyDate) : Nat :=
  daysBeforeYear d.year + daysBeforeMonth d.year d.month + d.day

/-- `date.weekday`: Monday = 0 … Sunday = 6. -/
def weekday (d : PyDate) : Nat :=
  (toOrdinal d + 6) % 7

/-- `date + timedelta(days=1)` as the calendar successor. -/
def nextDay (d : PyDate) : PyDate :=
  if d.day < daysInMonth d.year d.month then ⟨d.year, d.month, d.day + 1⟩
  else if d.month < 12 then ⟨d.year, d.month + 1, 1⟩
  else ⟨d.year + 1, 1, 1⟩

/-- `date.__lt__`: lexicographic comparison of the (y, m, d) triples. -/
def dateLt (a b : PyDate) : Bool :=
  a.year < b.year ||
    (a.year == b.year &&
      (a.month < b.month || (a.month == b.month && a.day < b.day)))

/-- `date.replace(year=y)`: rebuilds the date with the new year and
re-validates; `none` models the `ValueError` raised on an invalid result
(e.g. Feb 29 projected onto a non-leap year). -/
def replaceYear (d : PyDate) (y : Nat) : Option PyDate :=
  if isValidDate ⟨y, d.month, d.day⟩ then some ⟨y, d.month, d.day⟩ else none

/-- The weekend roll-forward loop
`while next_birthday.weekday() >= 5: next_birthday += timedelta(days=1)`,
written with fuel; 7 units are enough since weekdays cycle with period 7. -/
def rollForwardAux : Nat → PyDate → PyDate
  | 0, d => d
  | n + 1, d => if 5 ≤ weekday d then rollForwardAux n (nextDay d) else d

def rollForward (d : PyDate) : PyDate :=
  rollForwardAux 7 d

def pad2 (n : Nat) : String :=
  if n < 10 then "0" ++ toString n else toString n

/-- `date.strftime("%d.%m.%Y")` (years here are ≥ 1000, where `%Y` is
just the decimal digits). -/
def formatDate (d : PyDate) : String :=
  pad2 d.day ++ "." ++ pad2 d.month ++ "." ++ toString d.year

/-! ## `Phone` field (task.py lines 19-25)

`Phone.__init__` keeps every character that is a digit or one of
`+ - ( )`, requires the result to have length exactly 10, and stores the
sanitized string. -/

def isPhoneChar (c : Char) : Bool :=
  c.isDigit || c = '+' || c = '-' || c = '(' || c = ')'

def sanitizePhone (s : String) : String :=
  String.mk (s.toList.filter isPhoneChar)

/-- `Phone.__init__`; `Except.error` models the raised `ValueError`. -/
def phoneInit (s : String) : Except String String :=
  if (sanitizePhone s).length = 10 then Except.ok (sanitizePhone s)
  else Except.error "Phone number must contain 10 digits."

/-- Number of digit characters of a string (used to state C3). -/
def digitCount (s : String) : Nat :=
  (s.toList.filter Char.isDigit).length

/-! ## `Birthday` field (task.py lines 28-34)

`Birthday.__init__` calls `datetime.strptime(value, "%d.%m.%Y")`.
CPython's `_strptime` compiles the format to the regex
`(3[01]|[12]\d|0[1-9]|[1-9])\.(1[0-2]|0[1-9]|[1-9])\.(\d\d\d\d)`,
matches it against a prefix of the input, rejects unconverted trailing
data, and then builds a `datetime` (which validates the calendar date).
Day and month therefore accept one or two digits; the year takes exactly
four.  The functions below implement that regex deterministically: when
the two-character alternative of a group matches, no later failure can be
repaired by backtracking to the one-character alternative (the shorter
match would need a digit position to hold `'.'`). -/

def digitVal (c : Char) : Nat :=
  c.toNat - 48

/-- Two-digit day alternatives `3[01] | [12]\d | 0[1-9]`. -/
def parseDay2 (c1 c2 : Char) : Option Nat :=
  if c1 = '3' ∧ (c2 = '0' ∨ c2 = '1') then some (30 + digitVal c2)
  else if (c1 = '1' ∨ c1 = '2') ∧ c2.isDigit then
    some (10 * digitVal c1 + digitVal c2)
  else if c1 = '0' ∧ ('1' ≤ c2 ∧ c2 ≤ '9') then some (digitVal c2)
  else none

/-- One-digit day alternative `[1-9]`. -/
def parseDay1 (c : Char) : Option Nat :=
  if '1' ≤ c ∧ c ≤ '9' then some (digitVal c) else none

def parseDayStep : List Char → Option (Nat × List Char)
  | c1 :: c2 :: rest =>
    match parseDay2 c1 c2 with
    | some d => some (d, rest)
    | none => (parseDay1 c1).map (fun d => (d, c2 :: rest))
  | [c1] => (parseDay1 c1).map (fun d => (d, ([] : List Char)))
  | [] => none

/-- Two-digit month alternatives `1[0-2] | 0[1-9]`. -/
def parseMon2 (c1 c2 : Char) : Option Nat :=
  if c1 = '1' ∧ (c2 = '0' ∨ c2 = '1' ∨ c2 = '2') then some (10 + digitVal c2)
  else if c1 = '0' ∧ ('1' ≤ c2 ∧ c2 ≤ '9') then some (digitVal c2)
  else none

def parseMonStep : List Char → Option (Nat × List Char)
  | c1 :: c2 :: rest =>
    match parseMon2 c1 c2 with
    | some m => some (m, rest)
    | none => (parseDay1 c1).map (fun m => (m, c2 :: rest))
  | [c1] => (parseDay1 c1).map (fun m => (m, ([] : List Char)))
  | [] => none

/-- Year group `\d\d\d\d`, followed by the end-of-data check
(`unconverted data remains` is raised otherwise). -/
def parseYear4 : List Char → Option Nat
  | [a, b, c, d] =>
    if a.isDigit ∧ b.isDigit ∧ c.isDigit ∧ d.isDigit then
      some (1000 * digitVal a + 100 * digitVal b + 10 * digitVal c + digitVal d)
    else none
  | _ => none

def strptimeCore (l : List Char) : Option PyDate :=
  match parseDayStep l with
  | some (d, '.' :: rest1) =>
    match parseMonStep rest1 with
    | some (m, '.' :: rest2) =>
      match parseYear4 rest2 with
      | some y => if isValidDate ⟨y, m, d⟩ then some ⟨y, m, d⟩ else none
      | none => none
    | _ => none
  | _ => none

/-- `datetime.strptime(s, "%d.%m.%Y").date()`: regex match plus the
calendar validation done by the `datetime` constructor. -/
def strptimeDMY (s : String) : Option PyDate :=
  strptimeCore s.toList

structure Birthday where
  date : PyDate
  value : String
deriving DecidableEq

/-- `Birthday.__init__`: keeps both the parsed date and the raw string. -/
def birthdayInit (s : String) : Except String Birthday :=
  match strptimeDMY s with
  | some d => Except.ok ⟨d, s⟩
  | none => Except.error "Invalid date format. Use DD.MM.YYYY"

/-! ## `Record` (task.py lines 37-105)

A record's phones are the stored `Phone.value` strings, in order. -/

structure Record where
  name : String
  phones : List String
  birthday : Option Birthday
deriving DecidableEq

/-- `Record.add_phone`: validate, append; re-wrap the error message. -/
def recordAddPhone (r : Record) (phone : String) : Except String Record :=
  match phoneInit phone with
  | Except.ok v => Except.ok { r with phones := r.phones ++ [v] }
  | Except.error e => Except.error ("Error adding phone: " ++ e)

/-- `Record.remove_phone`'s scan: drop the first element equal to `v`. -/
def removeFirst : List String → String → Option (List String)
  | [], _ => none
  | p :: t, v => if p = v then some t else (removeFirst t v).map (fun l => p :: l)

def recordRemovePhone (r : Record) (v : String) : Except String Record :=
  match removeFirst r.phones v with
  | some l => Except.ok { r with phones := l }
  | none => Except.error "Phone number not found in record."

/-- `Record.edit_phone`'s scan: replace the first element equal to `old`
with the validated `new` value; validation failure aborts the scan. -/
def editFirst : List String → String → String → Except String (List String)
  | [], _, _ => Except.error "Phone number not found in record."
  | p :: t, old, new =>
    if p = old then
      match phoneInit new with
      | Except.ok v => Except.ok (v :: t)
      | Except.error e => Except.error ("Error: " ++ e)
    else (editFirst t old new).map (fun l => p :: l)

def recordEditPhone (r : Record) (old new : String) : Except String Record :=
  (editFirst r.phones old new).map (fun l => { r with phones := l })

def recordFindPhone (r : Record) (v : String) : Option String :=
  r.phones.find? (fun p => p = v)

/-- `Record.add_birthday`: overwrites any existing birthday. -/
def recordAddBirthday (r : Record) (raw : String) : Except String Record :=
  match birthdayInit raw with
  | Except.ok b => Except.ok { r with birthday := some b }
  | Except.error e => Except.error ("Error adding birthday: " ++ e)

structure UpEntry where
  name : String
  congratulation_date : String
deriving DecidableEq

/-- `Record.get_upcoming_birthdays` (task.py lines 74-95), with the
ambient `datetime.today()` made an explicit parameter.  `Except.error`
models the `ValueError` a naive `date.replace(year=...)` raises. -/
def getUpcomingBirthdays (today : PyDate) (r : Record) : Except String (List UpEntry) :=
  match r.birthday with
  | none => Except.ok []
  | some b =>
    match replaceYear b.date today.year with
    | none => Except.error "day is out of range for month"
    | some nb0 =>
      match (if dateLt nb0 today then replaceYear nb0 (today.year + 1) else some nb0) with
      | none => Except.error "day is out of range for month"
      | some nb1 =>
        let nb2 := rollForward nb1
        let delta : Int := (toOrdinal nb2 : Int) - (toOrdinal today : Int)
        if 0 ≤ delta ∧ delta ≤ 7 then Except.ok [⟨r.name, formatDate nb2⟩]
        else Except.ok []

/-- `Record.__str__`. -/
def recordStr (r : Record) : String :=
  "Contact name: " ++ r.name ++ ", phones: " ++ String.intercalate ", " r.phones ++
    ", birthday: " ++ (match r.birthday with | some b => b.value | none => "None")

/-! ## `AddressBook` (task.py lines 108-128)

Python's `dict` is modelled as an insertion-ordered association list;
assignment to an existing key keeps its position, assignment to a new key
appends. -/

abbrev AddressBook : Type := List (String × Record)

def findRecord (book : AddressBook) (name : String) : Option Record :=
  match book with
  | [] => none
  | (k, r) :: t => if k = name then some r else findRecord t name

def containsKey (book : AddressBook) (name : String) : Bool :=
  match book with
  | [] => false
  | (k, _) :: t => k = name || containsKey t name

/-- `self.data[name] = record` on a `dict`. -/
def setKey (book : AddressBook) (name : String) (r : Record) : AddressBook :=
  match book with
  | [] => [(name, r)]
  | (k, v) :: t => if k = name then (k, r) :: t else (k, v) :: setKey t name r

/-- `del self.data[name]` on a `dict`. -/
def delKey (book : AddressBook) (name : String) : AddressBook :=
  match book with
  | [] => []
  | (k, v) :: t => if k = name then t else (k, v) :: delKey t name

def addRecord (book : AddressBook) (r : Record) : AddressBook :=
  setKey book r.name r

/-- `AddressBook.delete_record`: result is (printed message, new book). -/
def deleteRecord (book : AddressBook) (name : String) : String × AddressBook :=
  if containsKey book name then ("Record removed successfully.", delKey book name)
  else ("Record not found.", book)

/-! ## Command handlers (task.py lines 144-243)

Each handler returns the string it hands back to the loop together with
the (possibly mutated) book; the `@input_error` wrapper's conversions of
`ValueError` / `IndexError` to strings are inlined at the points where
the corresponding Python exceptions escape. -/

/-- `add_birthday(args, book)` (lines 144-161).  Exactly two arguments
are required: Python's `name, birthday = args` raises a caught
`ValueError` when more are given. -/
def addBirthdayHandler (args : List String) (book : AddressBook) : String × AddressBook :=
  match args with
  | [name, bday] =>
    match findRecord book name with
    | some r =>
      match r.birthday with
      | some _ => ("Birthday already exists for " ++ name ++ ".", book)
      | none =>
        match recordAddBirthday r bday with
        | Except.ok r' => ("Birthday added successfully for " ++ name ++ ".", setKey book name r')
        | Except.error e => ("Error adding birthday: " ++ e, book)
    | none => ("Record not found.", book)
  | _ :: _ :: _ :: _ => ("ValueError: too many values to unpack (expected 2)", book)
  | _ => ("Not enough arguments. Please provide both name and birthday (DD.MM.YYYY).", book)

/-- `show_birthday(args, book)` (lines 164-173); `args[0]` on an empty
list raises `IndexError`, converted by `@input_error`. -/
def showBirthdayHandler (args : List String) (book : AddressBook) : String :=
  match args with
  | [] => "IndexError"
  | name :: _ =>
    match findRecord book name with
    | some r =>
      match r.birthday with
      | some b => name ++ "'s birthday: " ++ b.value
      | none => name ++ " has no birthday information."
    | none => "Record not found."

/-- The collection loop of `birthdays(args, book)` (lines 176-190); a
`ValueError` escaping `get_upcoming_birthdays` aborts the whole loop. -/
def collectUpcoming (today : PyDate) : List Record → Except String (List UpEntry)
  | [] => Except.ok []
  | r :: t =>
    if r.birthday.isSome then
      match getUpcomingBirthdays today r with
      | Except.ok es =>
        match collectUpcoming today t with
        | Except.ok rest => Except.ok (es ++ rest)
        | Except.error e => Except.error e
      | Except.error e => Except.error e
    else collectUpcoming today t

def birthdaysHandler (today : PyDate) (book : AddressBook) : String :=
  match collectUpcoming today (book.map Prod.snd) with
  | Except.error e => "ValueError: " ++ e
  | Except.ok entries =>
    let names := entries.map (fun u => u.name ++ " - " ++ u.congratulation_date)
    if names ≠ [] then "Upcoming birthdays:\n" ++ String.intercalate "\n" names
    else "No upcoming birthdays in the next 7 days."

/-- `add_contact(args, book)` (lines 193-206).  When the record is new it
is inserted into the book *before* the phone is validated. -/
def addContactHandler (args : List String) (book : AddressBook) : String × AddressBook :=
  match args with
  | name :: phone :: _ =>
    match findRecord book name with
    | some r =>
      if phone ≠ "" then
        match recordAddPhone r phone with
        | Except.ok r' => ("Contact updated.", setKey book name r')
        | Except.error e => ("ValueError: " ++ e, book)
      else ("Contact updated.", book)
    | none =>
      let r : Record := ⟨name, [], none⟩
      let book1 := setKey book name r
      if phone ≠ "" then
        match recordAddPhone r phone with
        | Except.ok r' => ("Contact added.", setKey book1 name r')
        | Except.error e => ("ValueError: " ++ e, book1)
      else ("Contact added.", book1)
  | _ => ("Not enough arguments. Please provide both name and phone number.", book)

/-- `change_contact(args, book)` (lines 209-222); `record.phones[0]` on
an empty list raises `IndexError`. -/
def changeContactHandler (args : List String) (book : AddressBook) : String × AddressBook :=
  match args with
  | [name, newPhone] =>
    match findRecord book name with
    | some r =>
      match r.phones with
      | [] => ("IndexError", book)
      | p0 :: _ =>
        match recordEditPhone r p0 newPhone with
        | Except.ok r' => ("Phone number updated for " ++ name ++ ".", setKey book name r')
        | Except.error e => ("Error: " ++ e, book)
    | none => ("Record not found.", book)
  | _ :: _ :: _ :: _ => ("ValueError: too many values to unpack (expected 2)", book)
  | _ => ("Not enough arguments. Please provide both name and new phone number.", book)

/-- `show_phones(args, book)` (lines 225-235). -/
def showPhonesHandler (args : List String) (book : AddressBook) : String :=
  match args with
  | [] => "Not enough arguments. Please provide a name."
  | name :: _ =>
    match findRecord book name with
    | some r => "Phones for " ++ name ++ ": " ++ String.intercalate ", " r.phones
    | none => "Record for " ++ name ++ " not found."

/-- `show_all(book)` (lines 238-243). -/
def showAllHandler (book : AddressBook) : String :=
  if book ≠ [] then
    String.intercalate "\n" (book.map (fun p => p.1 ++ ": " ++ recordStr p.2))
  else "Address book is empty."

/-! ## The command loop (task.py lines 261-306) -/

def isSpaceChar (c : Char) : Bool :=
  c = ' ' || c = '\t' || c = '\n' || c = '\r'

/-- `str.split()` with no separator: split on whitespace runs, no empty
tokens. -/
def splitWsAux (cur : List Char) : List Char → List String
  | [] => if cur = [] then [] else [String.mk cur.reverse]
  | c :: t =>
    if isSpaceChar c then
      if cur = [] then splitWsAux [] t else String.mk cur.reverse :: splitWsAux [] t
    else splitWsAux (c :: cur) t

/-- `parse_input` (lines 261-265): empty input gives an empty list. -/
def parseInput (s : String) : List String :=
  if s = "" then [] else splitWsAux [] s.toList

/-- Outcome of one iteration of `main`'s loop: the loop breaks, prints
and continues, or dies on an uncaught exception. -/
inductive StepOutcome where
  | halted (msg : String)
  | printed (msg : String) (book : AddressBook)
  | crashed (msg : String)
deriving DecidableEq

/-- One iteration of `main`'s `while True` loop (lines 272-306).
`command, *args = parse_input(user_input)` raises an uncaught
`ValueError` when the token list is empty. -/
def mainStep (today : PyDate) (line : String) (book : AddressBook) : StepOutcome :=
  match parseInput line with
  | [] => StepOutcome.crashed "ValueError: not enough values to unpack (expected at least 1, got 0)"
  | command :: args =>
    if command = "close" ∨ command = "exit" then StepOutcome.halted "Good bye!"
    else if command = "hello" then StepOutcome.printed "How can I help you?" book
    else if command = "add" then
      let (m, b') := addContactHandler args book
      StepOutcome.printed m b'
    else if command = "change" then
      let (m, b') := changeContactHandler args book
      StepOutcome.printed m b'
    else if command = "phone" then StepOutcome.printed (showPhonesHandler args book) book
    else if command = "all" then StepOutcome.printed (showAllHandler book) book
    else if command = "add_birthday" then
      let (m, b') := addBirthdayHandler args book
      StepOutcome.printed m b'
    else if command = "show_birthday" then StepOutcome.printed (showBirthdayHandler args book) book
    else if command = "birthdays" then StepOutcome.printed (birthdaysHandler today book) book
    else StepOutcome.printed "Invalid command." book

/-! ## Spec-side definition for claim C5

The amended C5 reads the accepted strings as
`day(1-2 digits).month(1-2 digits).year(4 digits)` denoting a valid
Gregorian date.  `lenientDateOfString` is written from those words (split
the string at the dots, check the three parts), to be compared with the
source-derived `strptimeDMY`. -/

def splitDots : List Char → List (List Char)
  | [] => [[]]
  | c :: t =>
    if c = '.' then [] :: splitDots t
    else
      match splitDots t with
      | [] => [[c]]
      | p :: ps => (c :: p) :: ps

def joinDots : List (List Char) → List Char
  | [] => []
  | [p] => p
  | p :: ps => p ++ '.' :: joinDots ps

def natOfDigits (l : List Char) : Nat :=
  l.foldl (fun a c => 10 * a + digitVal c) 0

def lenientCore (l : List Char) : Option PyDate :=
  match splitDots l with
  | [ds, ms, ys] =>
    if ds ≠ [] ∧ ds.length ≤ 2 ∧ ds.all Char.isDigit ∧
        ms ≠ [] ∧ ms.length ≤ 2 ∧ ms.all Char.isDigit ∧
        ys.length = 4 ∧ ys.all Char.isDigit then
      let dte : PyDate := ⟨natOfDigits ys, natOfDigits ms, natOfDigits ds⟩
      if isValidDate dte then some dte else none
    else none
  | _ => none

/-- Modelled from the amended C5: one-or-two-digit day, one-or-two-digit
month, exactly-four-digit year, separated by dots, denoting a valid
calendar date. -/
def lenientDateOfString (s : String) : Option PyDate :=
  lenientCore s.toList

/-! ## Calendar lemmas -/

theorem isLeap_iff (y : Nat) :
    isLeap y = true ↔ (y % 4 = 0 ∧ y % 100 ≠ 0) ∨ y % 400 = 0 := by
  simp [isLeap, Bool.or_eq_true, Bool.and_eq_true, beq_iff_eq, bne_iff_ne]

theorem daysInMonth_ge (y m : Nat) : 28 ≤ daysInMonth y m := by
  unfold daysInMonth
  split_ifs <;> omega

theorem daysInMonth_le (y m : Nat) : daysInMonth y m ≤ 31 := by
  unfold daysInMonth
  split_ifs <;> omega

theorem validDate_iff (d : PyDate) :
    isValidDate d = true ↔
      1 ≤ d.year ∧ 1 ≤ d.month ∧ d.month ≤ 12 ∧ 1 ≤ d.day ∧
        d.day ≤ daysInMonth d.year d.month := by
  simp [isValidDate, Bool.and_eq_true, decide_eq_true_eq]
  tauto

theorem daysBeforeMonth_succ (y m : Nat) (hm : 1 ≤ m) :
    daysBeforeMonth y (m + 1) = daysBeforeMonth y m + daysInMonth y m := by
  match m, hm with
  | k + 1, _ => rfl

theorem daysBeforeMonth_twelve (y : Nat) :
    daysBeforeMonth y 12 = 334 + (if isLeap y then 1 else 0) := by
  by_cases h : isLeap y <;>
    simp [daysBeforeMonth, daysInMonth, h]

set_option maxHeartbeats 1000000 in
theorem daysBeforeYear_succ (y : Nat) (hy : 1 ≤ y) :
    daysBeforeYear (y + 1) = daysBeforeYear y + 365 + (if isLeap y then 1 else 0) := by
  by_cases hb : isLeap y = true
  · rw [if_pos hb]
    have h := (isLeap_iff y).mp hb
    unfold daysBeforeYear
    omega
  · rw [if_neg hb]
    have h : ¬((y % 4 = 0 ∧ y % 100 ≠ 0) ∨ y % 400 = 0) :=
      fun hc => hb ((isLeap_iff y).mpr hc)
    unfold daysBeforeYear
    omega

theorem isLeap_next_of_isLeap (y : Nat) (h : isLeap y = true) :
    isLeap (y + 1) = false := by
  have h' := (isLeap_iff y).mp h
  cases hb : isLeap (y + 1) with
  | false => rfl
  | true =>
    exfalso
    have := (isLeap_iff (y + 1)).mp hb
    omega

theorem toOrdinal_nextDay (d : PyDate) (h : isValidDate d = true) :
    toOrdinal (nextDay d) = toOrdinal d + 1 := by
  rw [validDate_iff] at h
  obtain ⟨hy, hm1, hm2, hd1, hd2⟩ := h
  unfold nextDay
  split_ifs with h1 h2
  · simp only [toOrdinal]
    omega
  · -- month rollover
    have hdim : d.day = daysInMonth d.year d.month := by omega
    simp only [toOrdinal]
    rw [daysBeforeMonth_succ d.year d.month hm1]
    omega
  · -- year rollover: month = 12, day = 31
    have hm : d.month = 12 := by omega
    have hdim : d.day = daysInMonth d.year d.month := by omega
    have hd31 : d.day = 31 := by
      rw [hdim, hm]
      simp [daysInMonth]
    simp only [toOrdinal]
    rw [hm, hd31, daysBeforeYear_succ d.year hy, daysBeforeMonth_twelve]
    simp only [daysBeforeMonth]
    split_ifs <;> omega

theorem isValidDate_nextDay (d : PyDate) (h : isValidDate d = true) :
    isValidDate (nextDay d) = true := by
  rw [validDate_iff] at h
  obtain ⟨hy, hm1, hm2, hd1, hd2⟩ := h
  unfold nextDay
  split_ifs with h1 h2
  · rw [validDate_iff]
    simp only
    omega
  · rw [validDate_iff]
    simp only
    have := daysInMonth_ge d.year (d.month + 1)
    omega
  · rw [validDate_iff]
    simp only
    have := daysInMonth_ge (d.year + 1) 1
    omega

theorem weekday_nextDay (d : PyDate) (h : isValidDate d = true) :
    weekday (nextDay d) = (weekday d + 1) % 7 := by
  unfold weekday
  rw [toOrdinal_nextDay d h]
  omega

theorem weekday_lt (d : PyDate) : weekday d < 7 := by
  unfold weekday
  omega

theorem rollForward_of_weekday_lt (d : PyDate) (h : weekday d < 5) :
    rollForward d = d := by
  unfold rollForward rollForwardAux
  rw [if_neg (by omega)]

theorem rollForward_results (d : PyDate) (h : isValidDate d = true) :
    isValidDate (rollForward d) = true ∧ weekday (rollForward d) ≤ 4 ∧
      toOrdinal (rollForward d) =
        toOrdinal d + (if weekday d = 5 then 2 else if weekday d = 6 then 1 else 0) := by
  have hlt := weekday_lt d
  by_cases h5 : weekday d = 5
  · have hv1 : isValidDate (nextDay d) = true := isValidDate_nextDay d h
    have hw1 : weekday (nextDay d) = 6 := by rw [weekday_nextDay d h, h5]
    have hv2 : isValidDate (nextDay (nextDay d)) = true := isValidDate_nextDay _ hv1
    have hw2 : weekday (nextDay (nextDay d)) = 0 := by rw [weekday_nextDay _ hv1, hw1]
    have hr : rollForward d = nextDay (nextDay d) := by
      simp [rollForward, rollForwardAux, h5, hw1, hw2]
    rw [hr]
    refine ⟨hv2, by omega, ?_⟩
    rw [toOrdinal_nextDay _ hv1, toOrdinal_nextDay d h, if_pos h5]
  · by_cases h6 : weekday d = 6
    · have hv1 : isValidDate (nextDay d) = true := isValidDate_nextDay d h
      have hw1 : weekday (nextDay d) = 0 := by rw [weekday_nextDay d h, h6]
      have hr : rollForward d = nextDay d := by
        simp [rollForward, rollForwardAux, h6, hw1]
      rw [hr]
      refine ⟨hv1, by omega, ?_⟩
      rw [toOrdinal_nextDay d h, if_neg h5, if_pos h6]
    · have hr : rollForward d = d := rollForward_of_weekday_lt d (by omega)
      rw [hr]
      refine ⟨h, by omega, ?_⟩
      rw [if_neg h5, if_neg h6]
      omega

theorem replaceYear_eq_some (d : PyDate) (y : Nat) (d' : PyDate)
    (h : replaceYear d y = some d') :
    d' = ⟨y, d.month, d.day⟩ ∧ isValidDate d' = true := by
  unfold replaceYear at h
  split_ifs at h with hv
  cases h
  exact ⟨rfl, hv⟩

/-! ## Character arithmetic helpers -/

theorem char_eq_iff_toNat (a b : Char) : a = b ↔ a.toNat = b.toNat :=
  ⟨fun h => by rw [h], fun h => Char.ext (UInt32.ext h)⟩

theorem char_le_iff_toNat (a b : Char) : a ≤ b ↔ a.toNat ≤ b.toNat := by
  rw [Char.le_def, UInt32.le_def, BitVec.le_def]
  rfl

theorem isDigit_iff (c : Char) : c.isDigit = true ↔ 48 ≤ c.toNat ∧ c.toNat ≤ 57 := by
  simp only [Char.isDigit, Bool.and_eq_true, decide_eq_true_eq, ge_iff_le]
  rw [UInt32.le_def, UInt32.le_def, BitVec.le_def, BitVec.le_def]
  exact Iff.rfl

theorem digitVal_le (c : Char) (h : c.isDigit = true) : digitVal c ≤ 9 := by
  have := (isDigit_iff c).mp h
  unfold digitVal
  omega

theorem not_isDigit_dot : ('.' : Char).isDigit = false := by decide

/-! ## Lemmas on the `strptime` digit groups -/

theorem parseDay2_eq_some (c1 c2 : Char) (d : Nat) (h : parseDay2 c1 c2 = some d) :
    c1.isDigit = true ∧ c2.isDigit = true ∧ d = 10 * digitVal c1 + digitVal c2 ∧
      1 ≤ d ∧ d ≤ 31 := by
  unfold parseDay2 at h
  split_ifs at h with h1 h2 h3
  · obtain ⟨e1, e2⟩ := h1
    subst e1
    cases h
    rcases e2 with e2 | e2 <;> subst e2 <;>
      exact ⟨by decide, by decide, by decide, by decide, by decide⟩
  · obtain ⟨e1, hd2⟩ := h2
    cases h
    have hb := digitVal_le c2 hd2
    rcases e1 with e1 | e1 <;> subst e1
    · have hv : digitVal '1' = 1 := rfl
      exact ⟨by decide, hd2, rfl, by omega, by omega⟩
    · have hv : digitVal '2' = 2 := rfl
      exact ⟨by decide, hd2, rfl, by omega, by omega⟩
  · obtain ⟨e1, hl, hr⟩ := h3
    subst e1
    cases h
    have hln := (char_le_iff_toNat '1' c2).mp hl
    have hrn := (char_le_iff_toNat c2 '9').mp hr
    rw [show ('1' : Char).toNat = 49 from rfl] at hln
    rw [show ('9' : Char).toNat = 57 from rfl] at hrn
    have hd2 : c2.isDigit = true := (isDigit_iff c2).mpr (by omega)
    have hv : digitVal '0' = 0 := rfl
    have hc2 : digitVal c2 = c2.toNat - 48 := rfl
    exact ⟨by decide, hd2, by omega, by omega, by omega⟩

theorem parseDay2_none_of_not_digit (c1 c2 : Char) (h : c2.isDigit = false) :
    parseDay2 c1 c2 = none := by
  have hn : ¬(48 ≤ c2.toNat ∧ c2.toNat ≤ 57) := fun hc => by
    rw [(isDigit_iff c2).mpr hc] at h
    cases h
  unfold parseDay2
  rw [if_neg, if_neg, if_neg]
  · rintro ⟨e1, hl, hr⟩
    have hln := (char_le_iff_toNat '1' c2).mp hl
    have hrn := (char_le_iff_toNat c2 '9').mp hr
    rw [show ('1' : Char).toNat = 49 from rfl] at hln
    rw [show ('9' : Char).toNat = 57 from rfl] at hrn
    omega
  · rintro ⟨e1, hd⟩
    rw [hd] at h
    cases h
  · rintro ⟨e1, e2 | e2⟩ <;> subst e2 <;> exact absurd h (by decide)

theorem parseDay2_complete (c1 c2 : Char) (h1 : c1.isDigit = true) (h2 : c2.isDigit = true)
    (hlo : 1 ≤ 10 * digitVal c1 + digitVal c2) (hhi : 10 * digitVal c1 + digitVal c2 ≤ 31) :
    parseDay2 c1 c2 = some (10 * digitVal c1 + digitVal c2) := by
  have hn1 := (isDigit_iff c1).mp h1
  have hn2 := (isDigit_iff c2).mp h2
  unfold parseDay2
  unfold digitVal at hlo hhi ⊢
  by_cases hA3 : c1.toNat = 51
  · -- c1 = '3', so digitVal c2 ≤ 1
    have e1 : c1 = '3' := (char_eq_iff_toNat c1 '3').mpr (by rw [hA3]; rfl)
    have hB : c2.toNat = 48 ∨ c2.toNat = 49 := by omega
    have e2 : c2 = '0' ∨ c2 = '1' := by
      rcases hB with hB | hB
      · exact Or.inl ((char_eq_iff_toNat c2 '0').mpr (by rw [hB]; rfl))
      · exact Or.inr ((char_eq_iff_toNat c2 '1').mpr (by rw [hB]; rfl))
    rw [if_pos ⟨e1, e2⟩]
    simp only [Option.some.injEq]
    have h3n : c1.toNat = 51 := hA3
    omega
  · by_cases hA12 : c1.toNat = 49 ∨ c1.toNat = 50
    · -- c1 = '1' or '2'
      have e1 : c1 = '1' ∨ c1 = '2' := by
        rcases hA12 with hA | hA
        · exact Or.inl ((char_eq_iff_toNat c1 '1').mpr (by rw [hA]; rfl))
        · exact Or.inr ((char_eq_iff_toNat c1 '2').mpr (by rw [hA]; rfl))
      rw [if_neg, if_pos ⟨e1, h2⟩]
      rintro ⟨e3, _⟩
      subst e3
      exact hA3 rfl
    · -- digitVal c1 = 0 or ≥ 4; ≥ 4 contradicts the bound, so c1 = '0'
      have hA0 : c1.toNat = 48 := by omega
      have e1 : c1 = '0' := (char_eq_iff_toNat c1 '0').mpr (by rw [hA0]; rfl)
      have hBlo : 49 ≤ c2.toNat := by omega
      have el : '1' ≤ c2 := (char_le_iff_toNat '1' c2).mpr (by rw [show ('1' : Char).toNat = 49 from rfl]; omega)
      have er : c2 ≤ '9' := (char_le_iff_toNat c2 '9').mpr (by rw [show ('9' : Char).toNat = 57 from rfl]; omega)
      rw [if_neg, if_neg, if_pos ⟨e1, el, er⟩]
      · simp only [Option.some.injEq]
        omega
      · rintro ⟨e3 | e3, _⟩ <;> subst e3
        · exact hA12 (Or.inl rfl)
        · exact hA12 (Or.inr rfl)
      · rintro ⟨e3, _⟩
        subst e3
        exact hA3 rfl

theorem parseMon2_eq_some (c1 c2 : Char) (m : Nat) (h : parseMon2 c1 c2 = some m) :
    c1.isDigit = true ∧ c2.isDigit = true ∧ m = 10 * digitVal c1 + digitVal c2 ∧
      1 ≤ m ∧ m ≤ 12 := by
  unfold parseMon2 at h
  split_ifs at h with h1 h2
  · obtain ⟨e1, e2⟩ := h1
    subst e1
    cases h
    rcases e2 with e2 | e2 | e2 <;> subst e2 <;>
      exact ⟨by decide, by decide, by decide, by decide, by decide⟩
  · obtain ⟨e1, hl, hr⟩ := h2
    subst e1
    cases h
    have hln := (char_le_iff_toNat '1' c2).mp hl
    have hrn := (char_le_iff_toNat c2 '9').mp hr
    rw [show ('1' : Char).toNat = 49 from rfl] at hln
    rw [show ('9' : Char).toNat = 57 from rfl] at hrn
    have hd2 : c2.isDigit = true := (isDigit_iff c2).mpr (by omega)
    have hv : digitVal '0' = 0 := rfl
    have hc2 : digitVal c2 = c2.toNat - 48 := rfl
    exact ⟨by decide, hd2, by omega, by omega, by omega⟩

theorem parseMon2_none_of_not_digit (c1 c2 : Char) (h : c2.isDigit = false) :
    parseMon2 c1 c2 = none := by
  unfold parseMon2
  rw [if_neg, if_neg]
  · rintro ⟨e1, hl, hr⟩
    have hln := (char_le_iff_toNat '1' c2).mp hl
    have hrn := (char_le_iff_toNat c2 '9').mp hr
    rw [show ('1' : Char).toNat = 49 from rfl] at hln
    rw [show ('9' : Char).toNat = 57 from rfl] at hrn
    have hn : ¬(48 ≤ c2.toNat ∧ c2.toNat ≤ 57) := fun hc => by
      rw [(isDigit_iff c2).mpr hc] at h
      cases h
    omega
  · rintro ⟨e1, e2 | e2 | e2⟩ <;> subst e2 <;> exact absurd h (by decide)

theorem parseMon2_complete (c1 c2 : Char) (h1 : c1.isDigit = true) (h2 : c2.isDigit = true)
    (hlo : 1 ≤ 10 * digitVal c1 + digitVal c2) (hhi : 10 * digitVal c1 + digitVal c2 ≤ 12) :
    parseMon2 c1 c2 = some (10 * digitVal c1 + digitVal c2) := by
  have hn1 := (isDigit_iff c1).mp h1
  have hn2 := (isDigit_iff c2).mp h2
  unfold parseMon2
  unfold digitVal at hlo hhi ⊢
  by_cases hA1 : c1.toNat = 49
  · -- c1 = '1', so digitVal c2 ≤ 2
    have e1 : c1 = '1' := (char_eq_iff_toNat c1 '1').mpr (by rw [hA1]; rfl)
    have hB : c2.toNat = 48 ∨ c2.toNat = 49 ∨ c2.toNat = 50 := by omega
    have e2 : c2 = '0' ∨ c2 = '1' ∨ c2 = '2' := by
      rcases hB with hB | hB | hB
      · exact Or.inl ((char_eq_iff_toNat c2 '0').mpr (by rw [hB]; rfl))
      · exact Or.inr (Or.inl ((char_eq_iff_toNat c2 '1').mpr (by rw [hB]; rfl)))
      · exact Or.inr (Or.inr ((char_eq_iff_toNat c2 '2').mpr (by rw [hB]; rfl)))
    rw [if_pos ⟨e1, e2⟩]
    simp only [Option.some.injEq]
    have h1n : c1.toNat = 49 := hA1
    omega
  · -- c1 must be '0' with digitVal c2 ≥ 1
    have hA0 : c1.toNat = 48 := by omega
    have e1 : c1 = '0' := (char_eq_iff_toNat c1 '0').mpr (by rw [hA0]; rfl)
    have el : '1' ≤ c2 := (char_le_iff_toNat '1' c2).mpr (by rw [show ('1' : Char).toNat = 49 from rfl]; omega)
    have er : c2 ≤ '9' := (char_le_iff_toNat c2 '9').mpr (by rw [show ('9' : Char).toNat = 57 from rfl]; omega)
    rw [if_neg, if_pos ⟨e1, el, er⟩]
    · simp only [Option.some.injEq]
      omega
    · rintro ⟨e3, _⟩
      subst e3
      exact hA1 rfl

theorem parseDay1_eq_some (c : Char) (d : Nat) (h : parseDay1 c = some d) :
    c.isDigit = true ∧ d = digitVal c ∧ 1 ≤ d ∧ d ≤ 9 := by
  unfold parseDay1 at h
  split_ifs at h with h1
  obtain ⟨hl, hr⟩ := h1
  cases h
  have hln := (char_le_iff_toNat '1' c).mp hl
  have hrn := (char_le_iff_toNat c '9').mp hr
  rw [show ('1' : Char).toNat = 49 from rfl] at hln
  rw [show ('9' : Char).toNat = 57 from rfl] at hrn
  exact ⟨(isDigit_iff c).mpr (by omega), rfl, by unfold digitVal; omega, by unfold digitVal; omega⟩

theorem parseDay1_complete (c : Char) (h : c.isDigit = true) (hlo : 1 ≤ digitVal c) :
    parseDay1 c = some (digitVal c) := by
  have hn := (isDigit_iff c).mp h
  unfold digitVal at hlo
  unfold parseDay1
  rw [if_pos]
  refine ⟨(char_le_iff_toNat '1' c).mpr ?_, (char_le_iff_toNat c '9').mpr ?_⟩
  · rw [show ('1' : Char).toNat = 49 from rfl]
    omega
  · rw [show ('9' : Char).toNat = 57 from rfl]
    omega

/-! ## `natOfDigits` and `splitDots` lemmas -/

theorem natOfDigits_one (a : Char) : natOfDigits [a] = digitVal a := by
  show 10 * 0 + digitVal a = digitVal a
  omega

theorem natOfDigits_two (a b : Char) :
    natOfDigits [a, b] = 10 * digitVal a + digitVal b := by
  show 10 * (10 * 0 + digitVal a) + digitVal b = _
  omega

theorem natOfDigits_four (a b c d : Char) :
    natOfDigits [a, b, c, d] =
      1000 * digitVal a + 100 * digitVal b + 10 * digitVal c + digitVal d := by
  show 10 * (10 * (10 * (10 * 0 + digitVal a) + digitVal b) + digitVal c) + digitVal d = _
  omega

theorem no_dot_of_all_digit (p : List Char) (h : p.all Char.isDigit = true) :
    '.' ∉ p := by
  intro hm
  have := (List.all_eq_true.mp h) '.' hm
  exact absurd this (by decide)

theorem splitDots_ne_nil (l : List Char) : splitDots l ≠ [] := by
  cases l with
  | nil => simp [splitDots]
  | cons c t =>
    unfold splitDots
    split_ifs
    · simp
    · cases h : splitDots t <;> simp

theorem splitDots_append (p q : List Char) (hp : '.' ∉ p) :
    splitDots (p ++ '.' :: q) = p :: splitDots q := by
  induction p with
  | nil => simp [splitDots]
  | cons c t ih =>
    have hc : ¬(c = '.') := fun e => hp (by rw [e]; exact List.mem_cons_self '.' t)
    have ht : '.' ∉ t := fun hm => hp (List.mem_cons_of_mem c hm)
    rw [List.cons_append]
    rw [splitDots]
    rw [if_neg hc, ih ht]

theorem joinDots_cons (p : List Char) (r : List (List Char)) (hr : r ≠ []) :
    joinDots (p :: r) = p ++ '.' :: joinDots r := by
  cases r with
  | nil => exact absurd rfl hr
  | cons q s => rfl

theorem joinDots_splitDots (l : List Char) : joinDots (splitDots l) = l := by
  induction l with
  | nil => rfl
  | cons c t ih =>
    unfold splitDots
    split_ifs with hc
    · subst hc
      rw [joinDots_cons [] (splitDots t) (splitDots_ne_nil t), ih]
      rfl
    · cases h : splitDots t with
      | nil => exact absurd h (splitDots_ne_nil t)
      | cons p ps =>
        rw [h] at ih
        cases ps with
        | nil =>
          show joinDots [c :: p] = c :: t
          show c :: p = c :: t
          rw [show p = t from ih]
        | cons q s =>
          rw [joinDots_cons (c :: p) (q :: s) (by simp),
            show (c :: p) ++ '.' :: joinDots (q :: s) = c :: (p ++ '.' :: joinDots (q :: s)) from rfl,
            ← joinDots_cons p (q :: s) (by simp), ih]

theorem mem_splitDots_no_dot (l : List Char) :
    ∀ p ∈ splitDots l, '.' ∉ p := by
  induction l with
  | nil =>
    intro p hp
    simp [splitDots] at hp
    simp [hp]
  | cons c t ih =>
    intro p hp
    unfold splitDots at hp
    split_ifs at hp with hc
    · rcases List.mem_cons.mp hp with h | h
      · simp [h]
      · exact ih p h
    · cases h : splitDots t with
      | nil => exact absurd h (splitDots_ne_nil t)
      | cons q qs =>
        rw [h] at hp
        rcases List.mem_cons.mp hp with h2 | h2
        · subst h2
          intro hm
          rcases List.mem_cons.mp hm with h3 | h3
          · exact hc h3.symm
          · exact ih q (by rw [h]; exact List.mem_cons_self q qs) h3
        · exact ih p (by rw [h]; exact List.mem_cons_of_mem q h2)

/-! ## Step lemmas for the three `strptime` groups -/

theorem parseDayStep_eq_some (l rest : List Char) (d : Nat)
    (h : parseDayStep l = some (d, rest)) :
    ∃ ds, l = ds ++ rest ∧ ds ≠ [] ∧ ds.length ≤ 2 ∧ ds.all Char.isDigit = true ∧
      natOfDigits ds = d ∧ 1 ≤ d ∧ d ≤ 31 := by
  match l with
  | [] => cases h
  | [c1] =>
    rw [parseDayStep] at h
    cases hp : parseDay1 c1 with
    | none => rw [hp] at h; cases h
    | some d' =>
      rw [hp] at h
      simp only [Option.map_some'] at h
      cases h
      obtain ⟨hd, hv, h1, h9⟩ := parseDay1_eq_some c1 _ hp
      exact ⟨[c1], by simp, by simp, by simp, by simp [hd], by rw [natOfDigits_one, ← hv], h1, by omega⟩
  | c1 :: c2 :: r =>
    rw [parseDayStep] at h
    cases hp : parseDay2 c1 c2 with
    | some d2 =>
      rw [hp] at h
      cases h
      obtain ⟨hd1, hd2, hv, h1, h31⟩ := parseDay2_eq_some c1 c2 _ hp
      exact ⟨[c1, c2], by simp, by simp, by simp, by simp [hd1, hd2],
        by rw [natOfDigits_two, ← hv], h1, h31⟩
    | none =>
      rw [hp] at h
      cases hp1 : parseDay1 c1 with
      | none => rw [hp1] at h; cases h
      | some d' =>
        rw [hp1] at h
        simp only [Option.map_some'] at h
        cases h
        obtain ⟨hd, hv, h1, h9⟩ := parseDay1_eq_some c1 _ hp1
        exact ⟨[c1], by simp, by simp, by simp, by simp [hd], by rw [natOfDigits_one, ← hv], h1, by omega⟩

theorem parseDayStep_complete (ds q : List Char) (hne : ds ≠ []) (hlen : ds.length ≤ 2)
    (hdig : ds.all Char.isDigit = true) (hlo : 1 ≤ natOfDigits ds)
    (hhi : natOfDigits ds ≤ 31) :
    parseDayStep (ds ++ '.' :: q) = some (natOfDigits ds, '.' :: q) := by
  match ds, hne, hlen with
  | [c1], _, _ =>
    have hd : c1.isDigit = true := by simpa using hdig
    rw [natOfDigits_one] at hlo ⊢
    show parseDayStep (c1 :: '.' :: q) = _
    rw [parseDayStep]
    rw [parseDay2_none_of_not_digit c1 '.' (by decide), parseDay1_complete c1 hd hlo]
    rfl
  | [c1, c2], _, _ =>
    have hd1 : c1.isDigit = true := by
      have := List.all_eq_true.mp hdig c1 (by simp)
      simpa using this
    have hd2 : c2.isDigit = true := by
      have := List.all_eq_true.mp hdig c2 (by simp)
      simpa using this
    rw [natOfDigits_two] at hlo hhi ⊢
    show parseDayStep (c1 :: c2 :: '.' :: q) = _
    rw [parseDayStep]
    rw [parseDay2_complete c1 c2 hd1 hd2 hlo hhi]
  | c1 :: c2 :: c3 :: t, _, hlen => simp at hlen

theorem parseMonStep_eq_some (l rest : List Char) (m : Nat)
    (h : parseMonStep l = some (m, rest)) :
    ∃ ms, l = ms ++ rest ∧ ms ≠ [] ∧ ms.length ≤ 2 ∧ ms.all Char.isDigit = true ∧
      natOfDigits ms = m ∧ 1 ≤ m ∧ m ≤ 12 := by
  match l with
  | [] => cases h
  | [c1] =>
    rw [parseMonStep] at h
    cases hp : parseDay1 c1 with
    | none => rw [hp] at h; cases h
    | some m' =>
      rw [hp] at h
      simp only [Option.map_some'] at h
      cases h
      obtain ⟨hd, hv, h1, h9⟩ := parseDay1_eq_some c1 _ hp
      exact ⟨[c1], by simp, by simp, by simp, by simp [hd], by rw [natOfDigits_one, ← hv], h1, by omega⟩
  | c1 :: c2 :: r =>
    rw [parseMonStep] at h
    cases hp : parseMon2 c1 c2 with
    | some m2 =>
      rw [hp] at h
      cases h
      obtain ⟨hd1, hd2, hv, h1, h12⟩ := parseMon2_eq_some c1 c2 _ hp
      exact ⟨[c1, c2], by simp, by simp, by simp, by simp [hd1, hd2],
        by rw [natOfDigits_two, ← hv], h1, h12⟩
    | none =>
      rw [hp] at h
      cases hp1 : parseDay1 c1 with
      | none => rw [hp1] at h; cases h
      | some m' =>
        rw [hp1] at h
        simp only [Option.map_some'] at h
        cases h
        obtain ⟨hd, hv, h1, h9⟩ := parseDay1_eq_some c1 _ hp1
        exact ⟨[c1], by simp, by simp, by simp, by simp [hd], by rw [natOfDigits_one, ← hv], h1, by omega⟩

theorem parseMonStep_complete (ms q : List Char) (hne : ms ≠ []) (hlen : ms.length ≤ 2)
    (hdig : ms.all Char.isDigit = true) (hlo : 1 ≤ natOfDigits ms)
    (hhi : natOfDigits ms ≤ 12) :
    parseMonStep (ms ++ '.' :: q) = some (natOfDigits ms, '.' :: q) := by
  match ms, hne, hlen with
  | [c1], _, _ =>
    have hd : c1.isDigit = true := by simpa using hdig
    rw [natOfDigits_one] at hlo ⊢
    show parseMonStep (c1 :: '.' :: q) = _
    rw [parseMonStep]
    rw [parseMon2_none_of_not_digit c1 '.' (by decide), parseDay1_complete c1 hd hlo]
    rfl
  | [c1, c2], _, _ =>
    have hd1 : c1.isDigit = true := by
      have := List.all_eq_true.mp hdig c1 (by simp)
      simpa using this
    have hd2 : c2.isDigit = true := by
      have := List.all_eq_true.mp hdig c2 (by simp)
      simpa using this
    rw [natOfDigits_two] at hlo hhi ⊢
    show parseMonStep (c1 :: c2 :: '.' :: q) = _
    rw [parseMonStep]
    rw [parseMon2_complete c1 c2 hd1 hd2 hlo hhi]
  | c1 :: c2 :: c3 :: t, _, hlen => simp at hlen

theorem parseYear4_eq_some (l : List Char) (y : Nat) (h : parseYear4 l = some y) :
    l.length = 4 ∧ l.all Char.isDigit = true ∧ natOfDigits l = y := by
  match l with
  | [] => cases h
  | [_] => cases h
  | [_, _] => cases h
  | [_, _, _] => cases h
  | _ :: _ :: _ :: _ :: _ :: _ => cases h
  | [a, b, c, d] =>
    rw [parseYear4] at h
    split_ifs at h with hd
    cases h
    obtain ⟨h1, h2, h3, h4⟩ := hd
    exact ⟨rfl, by simp [h1, h2, h3, h4], by rw [natOfDigits_four]⟩

theorem parseYear4_complete (l : List Char) (hlen : l.length = 4)
    (hdig : l.all Char.isDigit = true) :
    parseYear4 l = some (natOfDigits l) := by
  match l, hlen with
  | [a, b, c, d], _ =>
    have h1 : a.isDigit = true := List.all_eq_true.mp hdig a (by simp)
    have h2 : b.isDigit = true := List.all_eq_true.mp hdig b (by simp)
    have h3 : c.isDigit = true := List.all_eq_true.mp hdig c (by simp)
    have h4 : d.isDigit = true := List.all_eq_true.mp hdig d (by simp)
    rw [parseYear4]
    rw [if_pos ⟨h1, h2, h3, h4⟩, natOfDigits_four]

/-! ## Equivalence of `strptimeCore` and `lenientCore` -/

theorem splitDots_of_no_dot (p : List Char) (hp : '.' ∉ p) : splitDots p = [p] := by
  induction p with
  | nil => rfl
  | cons c t ih =>
    have hc : ¬(c = '.') := fun e => hp (by rw [e]; exact List.mem_cons_self '.' t)
    have ht : '.' ∉ t := fun hm => hp (List.mem_cons_of_mem c hm)
    rw [splitDots]
    rw [if_neg hc, ih ht]

theorem lenientCore_eval (l ds ms ys : List Char) (h : splitDots l = [ds, ms, ys]) :
    lenientCore l =
      (if ds ≠ [] ∧ ds.length ≤ 2 ∧ ds.all Char.isDigit ∧ ms ≠ [] ∧ ms.length ≤ 2 ∧
          ms.all Char.isDigit ∧ ys.length = 4 ∧ ys.all Char.isDigit then
        (if isValidDate ⟨natOfDigits ys, natOfDigits ms, natOfDigits ds⟩ then
          some ⟨natOfDigits ys, natOfDigits ms, natOfDigits ds⟩ else none)
      else none) := by
  rw [lenientCore, h]

theorem strptimeCore_sound (l : List Char) (dte : PyDate)
    (h : strptimeCore l = some dte) : lenientCore l = some dte := by
  rw [strptimeCore] at h
  split at h
  next d rest1 heq =>
    split at h
    next m rest2 heq2 =>
      split at h
      next y heq3 =>
        split_ifs at h with hval
        cases h
        obtain ⟨ds, hl1, hdne, hdlen, hddig, hdval, hd1, hd31⟩ :=
          parseDayStep_eq_some l _ d heq
        obtain ⟨ms, hl2, hmne, hmlen, hmdig, hmval, hm1, hm12⟩ :=
          parseMonStep_eq_some rest1 _ m heq2
        obtain ⟨hyl, hydig, hyval⟩ := parseYear4_eq_some rest2 y heq3
        have hsd : splitDots l = [ds, ms, rest2] := by
          rw [hl1, splitDots_append ds _ (no_dot_of_all_digit ds hddig), hl2,
            splitDots_append ms _ (no_dot_of_all_digit ms hmdig),
            splitDots_of_no_dot rest2 (no_dot_of_all_digit rest2 hydig)]
        rw [lenientCore_eval l ds ms rest2 hsd,
          if_pos ⟨hdne, hdlen, hddig, hmne, hmlen, hmdig, hyl, hydig⟩,
          hdval, hmval, hyval, if_pos hval]
      next heq3 => cases h
    next hne => cases h
  next hne => cases h

theorem strptimeCore_complete (l : List Char) (dte : PyDate)
    (h : lenientCore l = some dte) : strptimeCore l = some dte := by
  cases hsd : splitDots l with
  | nil => exact absurd hsd (splitDots_ne_nil l)
  | cons p ps =>
    cases ps with
    | nil => simp [lenientCore, hsd] at h
    | cons q qs =>
      cases qs with
      | nil => simp [lenientCore, hsd] at h
      | cons r rs =>
        cases rs with
        | cons s ss => simp [lenientCore, hsd] at h
        | nil =>
          rw [lenientCore_eval l p q r hsd] at h
          split_ifs at h with hcond hval
          cases h
          obtain ⟨hdne, hdlen, hddig, hmne, hmlen, hmdig, hylen, hydig⟩ := hcond
          have hjoin := joinDots_splitDots l
          rw [hsd] at hjoin
          have hl : l = p ++ '.' :: (q ++ '.' :: r) := by
            rw [← hjoin]
            rfl
          have hv := (validDate_iff ⟨natOfDigits r, natOfDigits q, natOfDigits p⟩).mp hval
          simp only at hv
          obtain ⟨hy1, hm1, hm12, hd1, hdle⟩ := hv
          have hd31 : natOfDigits p ≤ 31 := le_trans hdle (daysInMonth_le _ _)
          rw [strptimeCore, hl,
            parseDayStep_complete p (q ++ '.' :: r) hdne hdlen hddig hd1 hd31]
          simp only [parseMonStep_complete q r hmne hmlen hmdig hm1 hm12,
            parseYear4_complete r hylen hydig, hval, if_true]

theorem strptimeCore_eq_lenientCore (l : List Char) :
    strptimeCore l = lenientCore l := by
  cases hs : strptimeCore l with
  | some dte => rw [strptimeCore_sound l dte hs]
  | none =>
    cases hl : lenientCore l with
    | none => rfl
    | some dte =>
      rw [strptimeCore_complete l dte hl] at hs
      cases hs

/-! ## First-match list lemmas (phone CRUD, address book) -/

theorem editFirst_spec (pre post : List String) (v new nv : String)
    (hfirst : ∀ p ∈ pre, p ≠ v) (hnew : phoneInit new = Except.ok nv) :
    editFirst (pre ++ v :: post) v new = Except.ok (pre ++ nv :: post) := by
  induction pre with
  | nil =>
    show editFirst (v :: post) v new = _
    unfold editFirst
    rw [if_pos rfl, hnew]
    rfl
  | cons p t ih =>
    have hp : p ≠ v := hfirst p (List.mem_cons_self p t)
    have ht : ∀ x ∈ t, x ≠ v := fun x hx => hfirst x (List.mem_cons_of_mem p hx)
    show editFirst (p :: (t ++ v :: post)) v new = _
    unfold editFirst
    rw [if_neg hp, ih ht]
    rfl

theorem removeFirst_spec (pre post : List String) (v : String)
    (hfirst : ∀ p ∈ pre, p ≠ v) :
    removeFirst (pre ++ v :: post) v = some (pre ++ post) := by
  induction pre with
  | nil =>
    show removeFirst (v :: post) v = _
    unfold removeFirst
    rw [if_pos rfl]
    rfl
  | cons p t ih =>
    have hp : p ≠ v := hfirst p (List.mem_cons_self p t)
    have ht : ∀ x ∈ t, x ≠ v := fun x hx => hfirst x (List.mem_cons_of_mem p hx)
    show removeFirst (p :: (t ++ v :: post)) v = _
    unfold removeFirst
    rw [if_neg hp, ih ht]
    rfl

theorem setKey_of_not_found (book : AddressBook) (name : String) (r : Record)
    (h : findRecord book name = none) :
    setKey book name r = book ++ [(name, r)] := by
  induction book with
  | nil => rfl
  | cons p t ih =>
    obtain ⟨k, v⟩ := p
    unfold findRecord at h
    split_ifs at h with hk
    show setKey ((k, v) :: t) name r = _
    unfold setKey
    rw [if_neg hk, ih h]
    rfl

theorem findRecord_append_self (book : AddressBook) (name : String) (r : Record)
    (h : findRecord book name = none) :
    findRecord (book ++ [(name, r)]) name = some r := by
  induction book with
  | nil => simp [findRecord]
  | cons p t ih =>
    obtain ⟨k, v⟩ := p
    unfold findRecord at h
    split_ifs at h with hk
    show findRecord ((k, v) :: (t ++ [(name, r)])) name = _
    unfold findRecord
    rw [if_neg hk, ih h]

theorem containsKey_mid (pre post : List (String × Record)) (name : String) (r : Record) :
    containsKey (pre ++ (name, r) :: post) name = true := by
  induction pre with
  | nil =>
    show containsKey ((name, r) :: post) name = true
    unfold containsKey
    simp
  | cons p t ih =>
    obtain ⟨k, v⟩ := p
    show containsKey ((k, v) :: (t ++ (name, r) :: post)) name = true
    unfold containsKey
    rw [ih]
    simp

theorem delKey_mid (pre post : List (String × Record)) (name : String) (r : Record)
    (hfirst : ∀ p ∈ pre, p.1 ≠ name) :
    delKey (pre ++ (name, r) :: post) name = pre ++ post := by
  induction pre with
  | nil =>
    show delKey ((name, r) :: post) name = post
    unfold delKey
    rw [if_pos rfl]
  | cons p t ih =>
    obtain ⟨k, v⟩ := p
    have hk : k ≠ name := hfirst (k, v) (List.mem_cons_self (k, v) t)
    have ht : ∀ x ∈ t, x.1 ≠ name := fun x hx => hfirst x (List.mem_cons_of_mem (k, v) hx)
    show delKey ((k, v) :: (t ++ (name, r) :: post)) name = (k, v) :: (t ++ post)
    unfold delKey
    rw [if_neg hk, ih ht]


/-! ## Claim theorems -/

/-- Claim C1: for a record with a birthday, `get_upcoming_birthdays`
projects the birthday onto today's year (`h1`), moves it to the next year
when it falls before today (`h2`), rolls it off weekends, and emits
exactly one entry, formatted `DD.MM.YYYY`, iff the resulting delta lies
in `[0, 7]`; the emitted date never falls on Saturday or Sunday. -/
theorem claim_C1_upcoming_window (today : PyDate) (r : Record) (b : Birthday)
    (nb0 nb1 : PyDate) (hb : r.birthday = some b)
    (h1 : replaceYear b.date today.year = some nb0)
    (h2 : (if dateLt nb0 today then replaceYear nb0 (today.year + 1) else some nb0) =
      some nb1) :
    getUpcomingBirthdays today r =
      (if 0 ≤ ((toOrdinal (rollForward nb1) : Int) - (toOrdinal today : Int)) ∧
          ((toOrdinal (rollForward nb1) : Int) - (toOrdinal today : Int)) ≤ 7 then
        Except.ok [⟨r.name, formatDate (rollForward nb1)⟩]
      else Except.ok []) ∧
    weekday (rollForward nb1) ≤ 4 := by
  constructor
  · simp only [getUpcomingBirthdays, hb, h1, h2]
  · have hv1 : isValidDate nb1 = true := by
      split_ifs at h2 with hlt
      · exact (replaceYear_eq_some nb0 _ nb1 h2).2
      · cases h2
        exact (replaceYear_eq_some b.date _ _ h1).2
    exact (rollForward_results nb1 hv1).2.1

/-- Witness for C1: the spec's own example (today Monday 01.01.2024,
birthday on Saturday 06.01 rolls to Monday 08.01.2024 with delta 7 and is
included) and an exclusion case (today Sunday 07.01.2024, birthday
Saturday 13.01 rolls to 15.01, delta 8, excluded). -/
theorem claim_C1_upcoming_window_witness :
    getUpcomingBirthdays ⟨2024, 1, 1⟩ ⟨"Alice", [], some ⟨⟨2000, 1, 6⟩, "06.01.2000"⟩⟩ =
      Except.ok [⟨"Alice", "08.01.2024"⟩] ∧
    weekday (rollForward ⟨2024, 1, 6⟩) ≤ 4 ∧
    getUpcomingBirthdays ⟨2024, 1, 7⟩ ⟨"Carl", [], some ⟨⟨1999, 1, 13⟩, "13.01.1999"⟩⟩ =
      Except.ok [] := by
  have hA := claim_C1_upcoming_window ⟨2024, 1, 1⟩
    ⟨"Alice", [], some ⟨⟨2000, 1, 6⟩, "06.01.2000"⟩⟩ ⟨⟨2000, 1, 6⟩, "06.01.2000"⟩
    ⟨2024, 1, 6⟩ ⟨2024, 1, 6⟩ rfl (by rfl) (by rfl)
  have hB := claim_C1_upcoming_window ⟨2024, 1, 7⟩
    ⟨"Carl", [], some ⟨⟨1999, 1, 13⟩, "13.01.1999"⟩⟩ ⟨⟨1999, 1, 13⟩, "13.01.1999"⟩
    ⟨2024, 1, 13⟩ ⟨2024, 1, 13⟩ rfl (by rfl) (by rfl)
  exact ⟨hA.1.trans (by rfl), hA.2, hB.1.trans (by rfl)⟩

/-- Claim C2 (code bug): an empty input line is tokenized to `[]`, but
`command, *args = parse_input(user_input)` then raises an uncaught
`ValueError` that kills the loop, instead of reaching the
`"Invalid command."` branch; a non-empty unknown command does reach it. -/
theorem claim_C2_empty_input_crashes :
    parseInput "" = [] ∧
    mainStep ⟨2024, 1, 1⟩ "" [] =
      StepOutcome.crashed
        "ValueError: not enough values to unpack (expected at least 1, got 0)" ∧
    mainStep ⟨2024, 1, 1⟩ "flibber" [] = StepOutcome.printed "Invalid command." [] :=
  ⟨rfl, rfl, rfl⟩

/-- Counterexample to C3 as stated: `"123456789-"` is accepted by
`Phone.__init__` (the `-` is kept by the filter, giving length 10) yet
the stored value has only 9 digit characters, not 10. -/
theorem claim_C3_counterexample :
    phoneInit "123456789-" = Except.ok "123456789-" ∧
      digitCount "123456789-" = 9 ∧ digitCount "123456789-" ≠ 10 :=
  ⟨rfl, by decide, by decide⟩

/-- Claim C3 as amended: every successfully constructed phone value is
the filtered string, has length exactly 10, and consists only of digits
and the punctuation characters `+ - ( )` (which are kept, not stripped,
so the digit count may be below 10). -/
theorem claim_C3_phone_invariant (s v : String) (h : phoneInit s = Except.ok v) :
    v = sanitizePhone s ∧ v.length = 10 ∧ v.toList.all isPhoneChar = true := by
  unfold phoneInit at h
  split_ifs at h with hlen
  cases h
  refine ⟨rfl, hlen, ?_⟩
  apply List.all_eq_true.mpr
  intro c hc
  exact List.of_mem_filter hc

/-- Witness for the amended C3 at an input whose retained punctuation
makes the 10-character value contain fewer than 10 digits. -/
theorem claim_C3_phone_invariant_witness :
    ("09(312)457" : String) = sanitizePhone "09(312)457" ∧
      ("09(312)457" : String).length = 10 ∧
      ("09(312)457" : String).toList.all isPhoneChar = true :=
  claim_C3_phone_invariant "09(312)457" "09(312)457" rfl

/-- Claim C4: `Phone.__init__` filters out every character that is
neither a digit nor one of `+ - ( )`, succeeds iff the filtered string
has length exactly 10, stores the filtered string on success, and raises
`ValueError` otherwise. -/
theorem claim_C4_phone_contract (s : String) :
    sanitizePhone s = String.mk (s.toList.filter isPhoneChar) ∧
    ((sanitizePhone s).length = 10 → phoneInit s = Except.ok (sanitizePhone s)) ∧
    ((sanitizePhone s).length ≠ 10 →
      phoneInit s = Except.error "Phone number must contain 10 digits.") ∧
    (∀ v, phoneInit s = Except.ok v → v = sanitizePhone s) := by
  refine ⟨rfl, fun h => by unfold phoneInit; rw [if_pos h],
    fun h => by unfold phoneInit; rw [if_neg h], ?_⟩
  intro v h
  unfold phoneInit at h
  split_ifs at h
  cases h
  rfl

/-- Witness for C4: a success case and a rejected case (10 digits plus
punctuation gives filtered length 12). -/
theorem claim_C4_phone_contract_witness :
    phoneInit "0501234567" = Except.ok (sanitizePhone "0501234567") ∧
    phoneInit "050-123-4567" = Except.error "Phone number must contain 10 digits." :=
  ⟨(claim_C4_phone_contract "0501234567").2.1 (by decide),
    (claim_C4_phone_contract "050-123-4567").2.2.1 (by decide)⟩

/-- Counterexample to C5 as stated: `strptime("%d.%m.%Y")` accepts
one-digit day and month fields, so `"5.1.2024"` is accepted although it
does not match the strict two-digit pattern the claim requires. -/
theorem claim_C5_counterexample :
    birthdayInit "5.1.2024" = Except.ok ⟨⟨2024, 1, 5⟩, "5.1.2024"⟩ := by
  rfl

/-- Claim C5 as amended: `Birthday.__init__` succeeds exactly when the
string is day(1-2 digits).month(1-2 digits).year(exactly 4 digits)
denoting a valid Gregorian calendar date; any failure raises
`ValueError "Invalid date format. Use DD.MM.YYYY"`, and success stores
the parsed date together with the original string. -/
theorem claim_C5_birthday_contract (s : String) :
    birthdayInit s =
      (match lenientDateOfString s with
       | some d => Except.ok ⟨d, s⟩
       | none => Except.error "Invalid date format. Use DD.MM.YYYY") := by
  unfold birthdayInit strptimeDMY lenientDateOfString
  rw [strptimeCore_eq_lenientCore]

/-- Claim C6: with duplicates present, `edit_phone` rewrites only the
first phone equal to `v` (length and all later entries, including later
duplicates of `v`, unchanged), and `remove_phone` drops only that first
match. -/
theorem claim_C6_first_match_only (r : Record) (pre post : List String)
    (v new nv : String) (hp : r.phones = pre ++ v :: post)
    (hfirst : ∀ p ∈ pre, p ≠ v) (hnew : phoneInit new = Except.ok nv) :
    recordEditPhone r v new = Except.ok { r with phones := pre ++ nv :: post } ∧
    recordRemovePhone r v = Except.ok { r with phones := pre ++ post } := by
  constructor
  · unfold recordEditPhone
    rw [hp, editFirst_spec pre post v new nv hfirst hnew]
    rfl
  · unfold recordRemovePhone
    rw [hp, removeFirst_spec pre post v hfirst]

/-- Witness for C6 on a phone list with a duplicated value: only the
first duplicate is edited / removed. -/
theorem claim_C6_first_match_only_witness :
    recordEditPhone ⟨"Bob", ["0000000000", "1111111111", "1111111111"], none⟩
        "1111111111" "2222222222" =
      Except.ok ⟨"Bob", ["0000000000", "2222222222", "1111111111"], none⟩ ∧
    recordRemovePhone ⟨"Bob", ["0000000000", "1111111111", "1111111111"], none⟩
        "1111111111" =
      Except.ok ⟨"Bob", ["0000000000", "1111111111"], none⟩ :=
  claim_C6_first_match_only ⟨"Bob", ["0000000000", "1111111111", "1111111111"], none⟩
    ["0000000000"] ["1111111111"] "1111111111" "2222222222" "2222222222"
    rfl (by decide) rfl

/-- Claim C7: the `add_birthday` command handler refuses to overwrite an
existing birthday (returns the "already exists" message and leaves the
book, hence the stored birthday, unchanged), while `Record.add_birthday`
itself overwrites unconditionally. -/
theorem claim_C7_birthday_overwrite_guard (book : AddressBook) (name dat : String)
    (r : Record) (b : Birthday) (hf : findRecord book name = some r)
    (hb : r.birthday = some b) :
    addBirthdayHandler [name, dat] book =
      ("Birthday already exists for " ++ name ++ ".", book) ∧
    (∀ (r' : Record) (raw : String) (b' : Birthday),
      birthdayInit raw = Except.ok b' →
      recordAddBirthday r' raw = Except.ok { r' with birthday := some b' }) := by
  constructor
  · simp only [addBirthdayHandler, hf, hb]
  · intro r' raw b' h
    unfold recordAddBirthday
    rw [h]

/-- Witness for C7: a second `add_birthday` on Ann leaves the book
unchanged, and `Record.add_birthday` itself overwrites Ann's birthday. -/
theorem claim_C7_birthday_overwrite_guard_witness :
    addBirthdayHandler ["Ann", "06.06.2001"]
        [("Ann", ⟨"Ann", [], some ⟨⟨2000, 1, 5⟩, "05.01.2000"⟩⟩)] =
      ("Birthday already exists for Ann.",
        [("Ann", ⟨"Ann", [], some ⟨⟨2000, 1, 5⟩, "05.01.2000"⟩⟩)]) ∧
    recordAddBirthday ⟨"Ann", [], some ⟨⟨2000, 1, 5⟩, "05.01.2000"⟩⟩ "06.06.2001" =
      Except.ok ⟨"Ann", [], some ⟨⟨2001, 6, 6⟩, "06.06.2001"⟩⟩ := by
  have h := claim_C7_birthday_overwrite_guard
    [("Ann", ⟨"Ann", [], some ⟨⟨2000, 1, 5⟩, "05.01.2000"⟩⟩)] "Ann" "06.06.2001"
    ⟨"Ann", [], some ⟨⟨2000, 1, 5⟩, "05.01.2000"⟩⟩ ⟨⟨2000, 1, 5⟩, "05.01.2000"⟩ rfl rfl
  exact ⟨h.1, h.2 _ "06.06.2001" ⟨⟨2001, 6, 6⟩, "06.06.2001"⟩ (by rfl)⟩

/-- Claim C8: for a Feb 29 birthday, `get_upcoming_birthdays` raises
(rather than clamping or skipping) whenever the naive
`date.replace(year=...)` targets a non-leap year: directly when today's
year is not leap, and after the year-wrap step when it is leap but
Feb 29 has already passed (the following year is then never leap). -/
theorem claim_C8_feb29_raises (today : PyDate) (r : Record) (b : Birthday)
    (hb : r.birthday = some b) (hm : b.date.month = 2) (hd : b.date.day = 29)
    (ht : isValidDate today = true) :
    (isLeap today.year = false →
      getUpcomingBirthdays today r = Except.error "day is out of range for month") ∧
    (isLeap today.year = true → dateLt ⟨today.year, 2, 29⟩ today = true →
      isLeap (today.year + 1) = false ∧
        getUpcomingBirthdays today r = Except.error "day is out of range for month") := by
  have hty : 1 ≤ today.year := by
    rw [validDate_iff] at ht
    exact ht.1
  constructor
  · intro hleap
    have hrep : replaceYear b.date today.year = none := by
      unfold replaceYear
      rw [if_neg]
      intro hv
      rw [validDate_iff] at hv
      simp only at hv
      rw [hm, hd] at hv
      rw [show daysInMonth today.year 2 = 28 by simp [daysInMonth, hleap]] at hv
      omega
    simp only [getUpcomingBirthdays, hb, hrep]
  · intro hleap hlt
    refine ⟨isLeap_next_of_isLeap today.year hleap, ?_⟩
    have h1 : replaceYear b.date today.year = some ⟨today.year, 2, 29⟩ := by
      unfold replaceYear
      rw [hm, hd, if_pos]
      rw [validDate_iff]
      simp only
      rw [show daysInMonth today.year 2 = 29 by simp [daysInMonth, hleap]]
      omega
    have h2 : replaceYear ⟨today.year, 2, 29⟩ (today.year + 1) = none := by
      unfold replaceYear
      rw [if_neg]
      intro hv
      rw [validDate_iff] at hv
      simp only at hv
      rw [show daysInMonth (today.year + 1) 2 = 28 by
        simp [daysInMonth, isLeap_next_of_isLeap today.year hleap]] at hv
      omega
    simp only [getUpcomingBirthdays, hb, h1, hlt, if_true, h2]

/-- Witness for C8: a Feb 29 birthday errors with today = 01.03.2023
(2023 not leap) and with today = 01.03.2024 (2024 leap but Feb 29 past,
so the projection wraps to non-leap 2025). -/
theorem claim_C8_feb29_raises_witness :
    getUpcomingBirthdays ⟨2023, 3, 1⟩ ⟨"Leap", [], some ⟨⟨2000, 2, 29⟩, "29.02.2000"⟩⟩ =
      Except.error "day is out of range for month" ∧
    isLeap 2025 = false ∧
    getUpcomingBirthdays ⟨2024, 3, 1⟩ ⟨"Leap", [], some ⟨⟨2000, 2, 29⟩, "29.02.2000"⟩⟩ =
      Except.error "day is out of range for month" := by
  have hA := claim_C8_feb29_raises ⟨2023, 3, 1⟩
    ⟨"Leap", [], some ⟨⟨2000, 2, 29⟩, "29.02.2000"⟩⟩ ⟨⟨2000, 2, 29⟩, "29.02.2000"⟩
    rfl rfl rfl (by decide)
  have hB := claim_C8_feb29_raises ⟨2024, 3, 1⟩
    ⟨"Leap", [], some ⟨⟨2000, 2, 29⟩, "29.02.2000"⟩⟩ ⟨⟨2000, 2, 29⟩, "29.02.2000"⟩
    rfl rfl rfl (by decide)
  have hB2 := hB.2 (by decide) (by decide)
  exact ⟨hA.1 (by decide), hB2.1, hB2.2⟩

/-- Claim C9: `delete_record` on an absent name reports "not found" and
leaves the book untouched; on a present name (book keys unique up to the
first occurrence) it removes exactly that entry. -/
theorem claim_C9_delete_record (book : AddressBook) (name : String) :
    (containsKey book name = false →
      deleteRecord book name = ("Record not found.", book)) ∧
    (∀ (pre post : List (String × Record)) (r : Record),
      book = pre ++ (name, r) :: post → (∀ p ∈ pre, p.1 ≠ name) →
      deleteRecord book name = ("Record removed successfully.", pre ++ post)) := by
  constructor
  · intro h
    unfold deleteRecord
    rw [h]
    rfl
  · intro pre post r hbook hfirst
    subst hbook
    unfold deleteRecord
    rw [containsKey_mid pre post name r, delKey_mid pre post name r hfirst]
    rfl

/-- Witness for C9: deleting an absent key is a reported no-op; deleting
a present key removes exactly its entry. -/
theorem claim_C9_delete_record_witness :
    deleteRecord [("A", ⟨"A", [], none⟩), ("B", ⟨"B", [], none⟩)] "C" =
      ("Record not found.", [("A", ⟨"A", [], none⟩), ("B", ⟨"B", [], none⟩)]) ∧
    deleteRecord [("A", ⟨"A", [], none⟩), ("B", ⟨"B", [], none⟩)] "A" =
      ("Record removed successfully.", [("B", ⟨"B", [], none⟩)]) :=
  ⟨(claim_C9_delete_record [("A", ⟨"A", [], none⟩), ("B", ⟨"B", [], none⟩)] "C").1
      (by decide),
    (claim_C9_delete_record [("A", ⟨"A", [], none⟩), ("B", ⟨"B", [], none⟩)] "A").2
      [] [("B", ⟨"B", [], none⟩)] ⟨"A", [], none⟩ rfl (by decide)⟩

/-- Claim C10: `add_contact` with an unknown name and an invalid phone
returns an error string, yet the book has been mutated: a record with
that name and no phones was inserted before the phone was validated. -/
theorem claim_C10_add_not_atomic (book : AddressBook) (name phone : String)
    (rest : List String) (hf : findRecord book name = none) (hph : phone ≠ "")
    (hbad : (sanitizePhone phone).length ≠ 10) :
    addContactHandler (name :: phone :: rest) book =
      ("ValueError: Error adding phone: Phone number must contain 10 digits.",
        book ++ [(name, ⟨name, [], none⟩)]) ∧
    findRecord (book ++ [(name, ⟨name, [], none⟩)]) name = some ⟨name, [], none⟩ := by
  constructor
  · have hadd : recordAddPhone ⟨name, [], none⟩ phone =
        Except.error ("Error adding phone: " ++ "Phone number must contain 10 digits.") := by
      unfold recordAddPhone phoneInit
      rw [if_neg hbad]
    simp only [addContactHandler, hf, if_pos hph, hadd,
      setKey_of_not_found book name _ hf]
    rfl
  · exact findRecord_append_self book name _ hf

/-- Witness for C10: adding "Zed" with bad phone "123" to the empty book
returns the error yet leaves an empty-phoned record behind. -/
theorem claim_C10_add_not_atomic_witness :
    addContactHandler ["Zed", "123"] [] =
      ("ValueError: Error adding phone: Phone number must contain 10 digits.",
        [("Zed", ⟨"Zed", [], none⟩)]) ∧
    findRecord [("Zed", ⟨"Zed", [], none⟩)] "Zed" = some ⟨"Zed", [], none⟩ :=
  claim_C10_add_not_atomic [] "Zed" "123" [] rfl (by decide) (by decide)
